import Mathlib

/-!
Verification of the core request pipeline of the `next-auth` repository
(`packages/core`): the `AuthInternal` dispatcher and its CSRF discipline,
the `authorized` / `signin` sign-in dispatchers, `getAuthorizationUrl`,
`sendToken`, `defaultNormalizer`, and the `session` action.

The TypeScript sources are embedded shallowly: pure computations become
Lean functions, external modules (the `init` routine, the OAuth check
helpers, the JOSE/JWT and oauth4webapi libraries, the database adapter,
randomness and the clock) become explicit oracle parameters, and calls
with side effects are recorded in explicit effect lists.  Machine-level
details that the sources never rely on (percent-encoding of query
strings, non-ASCII case mapping) are modelled at the level the sources
use them.
-/

namespace NextAuth

/-- A cookie as the core passes it around: name, value and the only
cookie option the verified code inspects or sets, the expiry. -/
structure Cookie where
  name : String
  value : String
  expires : Option Int := none
deriving DecidableEq, Repr

/-! ## JavaScript string primitives

`defaultNormalizer` in `send-token.ts` uses `String.prototype.toLowerCase`,
`trim` and `split`.  They are modelled character-exactly on `List Char`
(ASCII case mapping and ASCII whitespace, which is all the e-mail code
relies on). -/

/-- ASCII whitespace, the fragment of the JavaScript `trim` character
class that matters for ASCII input. -/
def isJsWs (c : Char) : Bool :=
  c = ' ' || c = '\t' || c = '\n' || c = '\r'

/-- One character of `String.prototype.toLowerCase`, on the basic latin
range: code points 65..90 are shifted by 32, everything else is kept. -/
def lowerChar (c : Char) : Char :=
  if 65 ≤ c.toNat ∧ c.toNat ≤ 90 then Char.ofNat (c.toNat + 32) else c

/-- `String.prototype.toLowerCase` on the character list of a string. -/
def jsToLower (l : List Char) : List Char :=
  l.map lowerChar

/-- `String.prototype.trim`: drop leading and trailing whitespace. -/
def jsTrim (l : List Char) : List Char :=
  ((l.dropWhile isJsWs).reverse.dropWhile isJsWs).reverse

/-- `String.prototype.split` with a one-character separator.  As in
JavaScript, the empty string splits to `[""]` and a trailing separator
produces a trailing empty part. -/
def splitOnChar (sep : Char) : List Char → List (List Char)
  | [] => [[]]
  | c :: cs =>
    match splitOnChar sep cs with
    | [] => [[]]
    | h :: t => if c = sep then [] :: h :: t else (c :: h) :: t

/-! ## `defaultNormalizer` (`send-token.ts`) -/

/-- The character-level body of `defaultNormalizer`: lower-case and trim
the input, split on the at sign, keep the first part as the local part,
truncate the second part at its first comma, and fail (the JavaScript
`TypeError` on `undefined.split`) when there is no second part. -/
def normalizeChars (email : List Char) : Except String (List Char) :=
  match splitOnChar '@' (jsTrim (jsToLower email)) with
  | [] => .error "unreachable: split never returns an empty list"
  | [_] => .error "TypeError: domain is undefined"
  | lcl :: domain :: _ =>
    .ok (lcl ++ '@' :: (splitOnChar ',' domain).headD [])

/-- `defaultNormalizer` from `send-token.ts`: rejects a falsy (empty)
input, otherwise normalizes as `normalizeChars` does. -/
def defaultNormalizer (email : String) : Except String String :=
  if email.isEmpty then .error "Missing email from request body."
  else (normalizeChars email.toList).map fun l => ⟨l⟩

/-- The description used by the claim for a successful result: the
lower-cased, trimmed e-mail in which only the first two parts split on
the at sign are kept and the domain part is truncated at its first
comma. -/
def specNormalized (email : String) : String :=
  ⟨(splitOnChar '@' (jsTrim (jsToLower email.toList))).headD [] ++
    '@' :: (splitOnChar ','
      ((splitOnChar '@' (jsTrim (jsToLower email.toList))).tail.headD [])).headD []⟩

/-- Whether a string ends in a whitespace character. -/
def endsInWs (s : String) : Bool :=
  isJsWs (s.toList.getLastD 'x')

/-! ### Lemmas about the string primitives -/

theorem splitOnChar_ne_nil (sep : Char) (l : List Char) : splitOnChar sep l ≠ [] := by
  cases l with
  | nil => simp [splitOnChar]
  | cons c cs =>
    unfold splitOnChar
    split
    · simp
    · split <;> simp

theorem splitOnChar_cons_eq (sep c : Char) (cs : List Char) {a : List Char}
    {t : List (List Char)} (hsplit : splitOnChar sep cs = a :: t) :
    splitOnChar sep (c :: cs) =
      if c = sep then [] :: a :: t else (c :: a) :: t := by
  unfold splitOnChar
  rw [hsplit]

theorem not_mem_of_mem_splitOnChar (sep : Char) :
    ∀ (l : List Char), ∀ p ∈ splitOnChar sep l, sep ∉ p := by
  intro l
  induction l with
  | nil =>
    intro p hp
    simp [splitOnChar] at hp
    simp [hp]
  | cons c cs ih =>
    intro p hp
    cases hsplit : splitOnChar sep cs with
    | nil => exact absurd hsplit (splitOnChar_ne_nil sep cs)
    | cons a t =>
      rw [splitOnChar_cons_eq sep c cs hsplit] at hp
      by_cases hc : c = sep
      · rw [if_pos hc] at hp
        rcases List.mem_cons.mp hp with h | h
        · simp [h]
        · exact ih p (hsplit ▸ h)
      · rw [if_neg hc] at hp
        rcases List.mem_cons.mp hp with h | h
        · subst h
          intro hmem
          rcases List.mem_cons.mp hmem with h | h
          · exact hc h.symm
          · exact ih a (hsplit ▸ List.mem_cons_self a t) h
        · exact ih p (hsplit ▸ List.mem_cons_of_mem a h)

theorem mem_of_mem_splitOnChar (sep : Char) :
    ∀ (l : List Char), ∀ p ∈ splitOnChar sep l, ∀ x ∈ p, x ∈ l := by
  intro l
  induction l with
  | nil =>
    intro p hp x hx
    simp [splitOnChar] at hp
    subst hp
    simp at hx
  | cons c cs ih =>
    intro p hp x hx
    cases hsplit : splitOnChar sep cs with
    | nil => exact absurd hsplit (splitOnChar_ne_nil sep cs)
    | cons a t =>
      rw [splitOnChar_cons_eq sep c cs hsplit] at hp
      by_cases hc : c = sep
      · rw [if_pos hc] at hp
        rcases List.mem_cons.mp hp with h | h
        · subst h; simp at hx
        · exact List.mem_cons_of_mem c (ih p (hsplit ▸ h) x hx)
      · rw [if_neg hc] at hp
        rcases List.mem_cons.mp hp with h | h
        · subst h
          rcases List.mem_cons.mp hx with h | h
          · exact h ▸ List.mem_cons_self c cs
          · exact List.mem_cons_of_mem c
              (ih a (hsplit ▸ List.mem_cons_self a t) x h)
        · exact List.mem_cons_of_mem c
            (ih p (hsplit ▸ List.mem_cons_of_mem a h) x hx)

theorem splitOnChar_two_le_iff (sep : Char) :
    ∀ l : List Char, 2 ≤ (splitOnChar sep l).length ↔ sep ∈ l := by
  intro l
  induction l with
  | nil => simp [splitOnChar]
  | cons c cs ih =>
    cases hsplit : splitOnChar sep cs with
    | nil => exact absurd hsplit (splitOnChar_ne_nil sep cs)
    | cons a t =>
      rw [splitOnChar_cons_eq sep c cs hsplit]
      by_cases hc : c = sep
      · subst hc
        simp
      · rw [if_neg hc]
        rw [hsplit] at ih
        simp only [List.length_cons, List.mem_cons]
        constructor
        · intro h
          right
          exact ih.mp (by simpa using h)
        · intro h
          rcases h with h | h
          · exact absurd h.symm hc
          · simpa using ih.mpr h

theorem splitOnChar_eq_single (sep : Char) :
    ∀ l : List Char, sep ∉ l → splitOnChar sep l = [l] := by
  intro l
  induction l with
  | nil => intro _; rfl
  | cons c cs ih =>
    intro h
    have hc : ¬ c = sep := fun hh => h (hh ▸ List.mem_cons_self c cs)
    have hcs : sep ∉ cs := fun hh => h (List.mem_cons_of_mem c hh)
    rw [splitOnChar_cons_eq sep c cs (ih hcs), if_neg hc]

theorem splitOnChar_append (sep : Char) (b : List Char) :
    ∀ a : List Char, sep ∉ a →
      splitOnChar sep (a ++ sep :: b) = a :: splitOnChar sep b := by
  intro a
  induction a with
  | nil =>
    intro _
    cases hsplit : splitOnChar sep b with
    | nil => exact absurd hsplit (splitOnChar_ne_nil sep b)
    | cons h t =>
      rw [List.nil_append, splitOnChar_cons_eq sep sep b hsplit, if_pos rfl]
  | cons x xs ih =>
    intro h
    have hx : ¬ x = sep := fun hh => h (hh ▸ List.mem_cons_self x xs)
    have hxs : sep ∉ xs := fun hh => h (List.mem_cons_of_mem x hh)
    have hrec := ih hxs
    rw [List.cons_append, splitOnChar_cons_eq sep x (xs ++ sep :: b) hrec,
      if_neg hx]

theorem splitOnChar_cons_decomp (sep : Char) :
    ∀ (l a b : List Char) (t : List (List Char)),
      splitOnChar sep l = a :: b :: t →
      ∃ s, l = a ++ sep :: s ∧ splitOnChar sep s = b :: t := by
  intro l
  induction l with
  | nil =>
    intro a b t h
    simp [splitOnChar] at h
  | cons c cs ih =>
    intro a b t h
    cases hsplit : splitOnChar sep cs with
    | nil => exact absurd hsplit (splitOnChar_ne_nil sep cs)
    | cons a' t' =>
      rw [splitOnChar_cons_eq sep c cs hsplit] at h
      by_cases hc : c = sep
      · rw [if_pos hc] at h
        obtain ⟨ha, hb, ht⟩ : a = [] ∧ b = a' ∧ t = t' := by
          have h1 := h
          injection h1 with h1 h2
          injection h2 with h2 h3
          exact ⟨h1.symm, h2.symm, h3.symm⟩
        refine ⟨cs, ?_, ?_⟩
        · simp [ha, hc]
        · rw [hsplit, hb, ht]
      · rw [if_neg hc] at h
        obtain ⟨ha, ht'⟩ : a = c :: a' ∧ t' = b :: t := by
          have h1 := h
          injection h1 with h1 h2
          exact ⟨h1.symm, h2⟩
        obtain ⟨s, hs1, hs2⟩ := ih a' b t (by rw [hsplit, ht'])
        refine ⟨s, ?_, hs2⟩
        rw [ha, hs1]
        simp

theorem toNat_lowerChar (c : Char) :
    (lowerChar c).toNat =
      if 65 ≤ c.toNat ∧ c.toNat ≤ 90 then c.toNat + 32 else c.toNat := by
  unfold lowerChar
  split
  case isTrue h =>
    rw [Char.ofNat, dif_pos (Or.inl (by omega))]
    rfl
  case isFalse h => rfl

theorem char_eq_of_toNat_eq {a b : Char} (h : a.toNat = b.toNat) : a = b := by
  apply Char.ext
  exact UInt32.ext h

theorem lowerChar_idem (c : Char) : lowerChar (lowerChar c) = lowerChar c := by
  apply char_eq_of_toNat_eq
  rw [toNat_lowerChar (lowerChar c), toNat_lowerChar c]
  by_cases h : 65 ≤ c.toNat ∧ c.toNat ≤ 90
  · rw [if_pos h, if_neg (by omega)]
  · rw [if_neg h, if_neg h]

theorem lowerChar_eq_at_iff (c : Char) : lowerChar c = '@' ↔ c = '@' := by
  constructor
  · intro h
    have hn : (lowerChar c).toNat = 64 := by rw [h]; rfl
    rw [toNat_lowerChar c] at hn
    by_cases hr : 65 ≤ c.toNat ∧ c.toNat ≤ 90
    · rw [if_pos hr] at hn; omega
    · rw [if_neg hr] at hn
      exact char_eq_of_toNat_eq hn
  · intro h
    subst h
    decide

theorem mem_jsToLower_at (l : List Char) : '@' ∈ jsToLower l ↔ '@' ∈ l := by
  unfold jsToLower
  rw [List.mem_map]
  constructor
  · rintro ⟨a, ha, hla⟩
    exact ((lowerChar_eq_at_iff a).mp hla) ▸ ha
  · intro h
    exact ⟨'@', h, (lowerChar_eq_at_iff '@').mpr rfl⟩

theorem mem_dropWhile_iff {p : Char → Bool} {a : Char} (ha : p a = false) :
    ∀ l : List Char, a ∈ l.dropWhile p ↔ a ∈ l := by
  intro l
  induction l with
  | nil => simp
  | cons c cs ih =>
    rw [List.dropWhile_cons]
    by_cases hc : p c
    · rw [if_pos hc, ih, List.mem_cons]
      constructor
      · exact Or.inr
      · rintro (h | h)
        · subst h; rw [hc] at ha; cases ha
        · exact h
    · rw [if_neg hc]

theorem mem_jsTrim_iff {a : Char} (ha : isJsWs a = false) (l : List Char) :
    a ∈ jsTrim l ↔ a ∈ l := by
  unfold jsTrim
  rw [List.mem_reverse, mem_dropWhile_iff ha, List.mem_reverse,
    mem_dropWhile_iff ha]

theorem jsTrim_subset (l : List Char) : ∀ x ∈ jsTrim l, x ∈ l := by
  intro x hx
  unfold jsTrim at hx
  rw [List.mem_reverse] at hx
  have h1 := (List.dropWhile_sublist (l := (l.dropWhile isJsWs).reverse)
    (p := isJsWs)).subset hx
  rw [List.mem_reverse] at h1
  exact (List.dropWhile_sublist (l := l) (p := isJsWs)).subset h1

theorem dropWhile_head_false {p : Char → Bool} :
    ∀ (l : List Char) (c : Char) (t : List Char),
      l.dropWhile p = c :: t → p c = false := by
  intro l
  induction l with
  | nil => intro c t h; cases h
  | cons a as ih =>
    intro c t h
    rw [List.dropWhile_cons] at h
    by_cases hp : p a
    · rw [if_pos hp] at h
      exact ih c t h
    · rw [if_neg hp] at h
      have : a = c := (List.cons.injEq a as c t ▸ h).1
      subst this
      exact Bool.eq_false_iff.mpr hp

theorem jsTrim_head_not_ws (l : List Char) (c : Char) (t : List Char)
    (h : jsTrim l = c :: t) : isJsWs c = false := by
  unfold jsTrim at h
  obtain ⟨pre, hpre⟩ := List.dropWhile_suffix
    (l := (l.dropWhile isJsWs).reverse) (p := isJsWs)
  have h2 : (l.dropWhile isJsWs).reverse.dropWhile isJsWs = (c :: t).reverse := by
    rw [← h, List.reverse_reverse]
  rw [h2] at hpre
  have h3 : l.dropWhile isJsWs = c :: (t ++ pre.reverse) := by
    have h4 := congrArg List.reverse hpre
    rw [List.reverse_append, List.reverse_reverse, List.reverse_reverse] at h4
    simpa using h4.symm
  exact dropWhile_head_false _ c _ h3

theorem dropWhile_eq_self_of_head {p : Char → Bool} {l : List Char}
    (h : ∀ c, l.head? = some c → p c = false) : l.dropWhile p = l := by
  cases l with
  | nil => rfl
  | cons a t =>
    rw [List.dropWhile_cons, if_neg]
    rw [h a rfl]
    simp

theorem jsTrim_eq_self {l : List Char}
    (hhead : ∀ c, l.head? = some c → isJsWs c = false)
    (hlast : ∀ c, l.getLast? = some c → isJsWs c = false) :
    jsTrim l = l := by
  unfold jsTrim
  rw [dropWhile_eq_self_of_head hhead]
  rw [dropWhile_eq_self_of_head
    (by intro c hc; rw [List.head?_reverse] at hc; exact hlast c hc)]
  exact List.reverse_reverse l

theorem map_eq_self_of_fixed {f : Char → Char} :
    ∀ l : List Char, (∀ x ∈ l, f x = x) → l.map f = l := by
  intro l
  induction l with
  | nil => intro _; rfl
  | cons c cs ih =>
    intro h
    rw [List.map_cons, h c (List.mem_cons_self c cs),
      ih fun x hx => h x (List.mem_cons_of_mem c hx)]

/-! ### Behaviour of `normalizeChars` and `defaultNormalizer` -/

theorem normalizeChars_eq_of_split (l lcl domain : List Char)
    (rest : List (List Char))
    (hs : splitOnChar '@' (jsTrim (jsToLower l)) = lcl :: domain :: rest) :
    normalizeChars l = .ok (lcl ++ '@' :: (splitOnChar ',' domain).headD []) := by
  unfold normalizeChars
  rw [hs]

theorem normalizeChars_err_of_single (l a : List Char)
    (hs : splitOnChar '@' (jsTrim (jsToLower l)) = [a]) :
    normalizeChars l = .error "TypeError: domain is undefined" := by
  unfold normalizeChars
  rw [hs]

theorem normalizeChars_ok_decomp (l v : List Char)
    (h : normalizeChars l = .ok v) :
    ∃ lcl domain rest,
      splitOnChar '@' (jsTrim (jsToLower l)) = lcl :: domain :: rest ∧
      v = lcl ++ '@' :: (splitOnChar ',' domain).headD [] := by
  cases hs : splitOnChar '@' (jsTrim (jsToLower l)) with
  | nil => exact absurd hs (splitOnChar_ne_nil '@' _)
  | cons a t =>
    cases t with
    | nil =>
      rw [normalizeChars_err_of_single l a hs] at h
      cases h
    | cons b t' =>
      rw [normalizeChars_eq_of_split l a b t' hs] at h
      injection h with h
      exact ⟨a, b, t', rfl, h.symm⟩

theorem normalizeChars_isOk_iff (l : List Char) :
    (∃ v, normalizeChars l = .ok v) ↔ '@' ∈ l := by
  constructor
  · rintro ⟨v, hv⟩
    obtain ⟨lcl, domain, rest, hs, _⟩ := normalizeChars_ok_decomp l v hv
    have h2 : 2 ≤ (splitOnChar '@' (jsTrim (jsToLower l))).length := by
      rw [hs]
      simp only [List.length_cons]
      omega
    have h3 := (splitOnChar_two_le_iff '@' _).mp h2
    rw [mem_jsTrim_iff (by decide), mem_jsToLower_at] at h3
    exact h3
  · intro h
    have h2 : '@' ∈ jsTrim (jsToLower l) :=
      (mem_jsTrim_iff (by decide) _).mpr ((mem_jsToLower_at l).mpr h)
    have h3 := (splitOnChar_two_le_iff '@' _).mpr h2
    cases hs : splitOnChar '@' (jsTrim (jsToLower l)) with
    | nil => exact absurd hs (splitOnChar_ne_nil '@' _)
    | cons a t =>
      cases t with
      | nil => rw [hs] at h3; simp at h3
      | cons b t' => exact ⟨_, normalizeChars_eq_of_split l a b t' hs⟩

theorem normalizeChars_idem (l v : List Char)
    (h : normalizeChars l = .ok v)
    (hlast : ∀ c, v.getLast? = some c → isJsWs c = false) :
    normalizeChars v = .ok v ∧ '@' ∈ v := by
  obtain ⟨lcl, domain, rest, hs, hv⟩ := normalizeChars_ok_decomp l v h
  have hlcl_mem : lcl ∈ splitOnChar '@' (jsTrim (jsToLower l)) :=
    hs ▸ List.mem_cons_self _ _
  have hdom_mem : domain ∈ splitOnChar '@' (jsTrim (jsToLower l)) :=
    hs ▸ List.mem_cons_of_mem _ (List.mem_cons_self _ _)
  have hat_lcl : '@' ∉ lcl := not_mem_of_mem_splitOnChar '@' _ lcl hlcl_mem
  have hat_dom : '@' ∉ domain := not_mem_of_mem_splitOnChar '@' _ domain hdom_mem
  have hd0_mem : (splitOnChar ',' domain).headD [] ∈ splitOnChar ',' domain := by
    cases hcs : splitOnChar ',' domain with
    | nil => exact absurd hcs (splitOnChar_ne_nil ',' domain)
    | cons a t' => simp
  have hcomma_d0 : ',' ∉ (splitOnChar ',' domain).headD [] :=
    not_mem_of_mem_splitOnChar ',' domain _ hd0_mem
  have hd0_sub : ∀ x ∈ (splitOnChar ',' domain).headD [], x ∈ domain :=
    mem_of_mem_splitOnChar ',' domain _ hd0_mem
  have hat_d0 : '@' ∉ (splitOnChar ',' domain).headD [] :=
    fun hx => hat_dom (hd0_sub '@' hx)
  have hfix : ∀ x ∈ jsTrim (jsToLower l), lowerChar x = x := by
    intro x hx
    obtain ⟨y, _, hy⟩ := List.mem_map.mp (jsTrim_subset _ x hx)
    rw [← hy]
    exact lowerChar_idem y
  have hlcl_sub : ∀ x ∈ lcl, x ∈ jsTrim (jsToLower l) :=
    mem_of_mem_splitOnChar '@' _ lcl hlcl_mem
  have hdom_sub : ∀ x ∈ domain, x ∈ jsTrim (jsToLower l) :=
    mem_of_mem_splitOnChar '@' _ domain hdom_mem
  have hv_fix : ∀ x ∈ v, lowerChar x = x := by
    intro x hx
    rw [hv] at hx
    rcases List.mem_append.mp hx with hx | hx
    · exact hfix x (hlcl_sub x hx)
    · rcases List.mem_cons.mp hx with hx | hx
      · subst hx; decide
      · exact hfix x (hdom_sub x (hd0_sub x hx))
  have hlower_v : jsToLower v = v := map_eq_self_of_fixed v hv_fix
  obtain ⟨s, hts, _⟩ := splitOnChar_cons_decomp '@' _ lcl domain rest hs
  have hhead : ∀ c, v.head? = some c → isJsWs c = false := by
    intro c hc
    rw [hv] at hc
    cases hl : lcl with
    | nil =>
      rw [hl] at hc
      simp only [List.nil_append, List.head?_cons, Option.some.injEq] at hc
      rw [← hc]
      decide
    | cons a as =>
      rw [hl] at hc
      simp only [List.cons_append, List.head?_cons, Option.some.injEq] at hc
      have hta : jsTrim (jsToLower l) = a :: (as ++ '@' :: s) := by
        rw [hts, hl, List.cons_append]
      rw [← hc]
      exact jsTrim_head_not_ws (jsToLower l) a _ hta
  have htrim_v : jsTrim v = v := jsTrim_eq_self hhead hlast
  have hsplit_v : splitOnChar '@' v = [lcl, (splitOnChar ',' domain).headD []] := by
    rw [hv, splitOnChar_append '@' _ lcl hat_lcl,
      splitOnChar_eq_single '@' _ hat_d0]
  refine ⟨?_, by rw [hv]; simp⟩
  have hsplit2 : splitOnChar '@' (jsTrim (jsToLower v)) =
      lcl :: (splitOnChar ',' domain).headD [] :: [] := by
    rw [hlower_v, htrim_v, hsplit_v]
  rw [normalizeChars_eq_of_split v lcl _ [] hsplit2,
    splitOnChar_eq_single ',' _ hcomma_d0]
  rw [hv]
  rfl

theorem except_map_ok {ε α β : Type} (f : α → β) (x : Except ε α) (v : β) :
    x.map f = .ok v ↔ ∃ w, x = .ok w ∧ v = f w := by
  cases x with
  | error e =>
    constructor
    · intro h; cases h
    · rintro ⟨w, hw, _⟩; cases hw
  | ok w =>
    constructor
    · intro h; injection h with h; exact ⟨w, rfl, h.symm⟩
    · rintro ⟨w', hw, hv⟩
      injection hw with hw
      subst hw hv
      rfl

theorem defaultNormalizer_of_ne_empty {e : String} (he : ¬ e = "") :
    defaultNormalizer e = (normalizeChars e.toList).map fun l => ⟨l⟩ := by
  unfold defaultNormalizer
  rw [if_neg fun h => he ((String.isEmpty_iff e).mp h)]

/-- C10 (amended): `defaultNormalizer` fails exactly when its input is empty
or contains no at-sign character; on every other input it returns the
lower-cased, trimmed e-mail in which only the first two at-separated parts are
kept and the domain part is truncated at its first comma; and the function is
idempotent on every successful output that does not end in a whitespace
character.  (Unconditional idempotence is false: truncating the domain can
expose trailing whitespace, which a second run trims away, see the
counterexample.) -/
theorem C10_defaultNormalizer_amended (e : String) :
    ((∃ v, defaultNormalizer e = .ok v) ↔ (¬ e = "" ∧ '@' ∈ e.toList)) ∧
    (∀ v, defaultNormalizer e = .ok v → v = specNormalized e) ∧
    (∀ v, defaultNormalizer e = .ok v → endsInWs v = false →
      defaultNormalizer v = .ok v) := by
  by_cases he : e = ""
  · subst he
    refine ⟨?_, ?_, ?_⟩
    · constructor
      · rintro ⟨v, hv⟩; cases hv
      · rintro ⟨h, _⟩; exact absurd rfl h
    · intro v hv; cases hv
    · intro v hv; cases hv
  · rw [defaultNormalizer_of_ne_empty he]
    refine ⟨?_, ?_, ?_⟩
    · constructor
      · rintro ⟨v, hv⟩
        obtain ⟨w, hw, _⟩ := (except_map_ok _ _ _).mp hv
        exact ⟨he, (normalizeChars_isOk_iff e.toList).mp ⟨w, hw⟩⟩
      · rintro ⟨_, hat⟩
        obtain ⟨w, hw⟩ := (normalizeChars_isOk_iff e.toList).mpr hat
        exact ⟨⟨w⟩, by rw [hw]; rfl⟩
    · intro v hv
      obtain ⟨w, hw, hvw⟩ := (except_map_ok _ _ _).mp hv
      obtain ⟨lcl, domain, rest, hs, hwv⟩ := normalizeChars_ok_decomp _ w hw
      unfold specNormalized
      rw [hs]
      subst hvw hwv
      rfl
    · intro v hv hws
      obtain ⟨w, hw, hvw⟩ := (except_map_ok _ _ _).mp hv
      have hvl : v.toList = w := by rw [hvw]; rfl
      have hlast : ∀ c, w.getLast? = some c → isJsWs c = false := by
        intro c hc
        unfold endsInWs at hws
        rw [hvl, List.getLastD_eq_getLast?, hc] at hws
        exact hws
      obtain ⟨hidem, hat⟩ := normalizeChars_idem e.toList w hw hlast
      have hvne : ¬ v = "" := by
        intro hveq
        have : w = [] := by
          rw [← hvl, hveq]
          rfl
        rw [this] at hat
        simp at hat
      rw [defaultNormalizer_of_ne_empty hvne, hvl, hidem]
      simp only [Except.map]
      rw [hvw]

/-- C10 counterexample to the claim as stated: `defaultNormalizer` is not
idempotent on all of its successful outputs.  On the input "a@b ,c" the
truncation at the comma exposes a trailing space, producing "a@b ", and a
second application trims it away, producing "a@b". -/
theorem C10_defaultNormalizer_counterexample :
    defaultNormalizer "a@b ,c" = .ok "a@b " ∧
    defaultNormalizer "a@b " = .ok "a@b" ∧
    ("a@b " : String) ≠ "a@b" := by
  exact ⟨rfl, rfl, by decide⟩

/-- Concrete instantiation of the amended C10 theorem. -/
theorem C10_defaultNormalizer_witness :
    defaultNormalizer "a@b" = .ok "a@b" :=
  (C10_defaultNormalizer_amended " A@b,c").2.2 "a@b" rfl (by decide)

/-! ## The sign-in dispatchers `authorized` and `signin`

`authorized` (the current dispatcher) and `signin` (the legacy one) switch on
the provider type and delegate to `getAuthorizationUrl` and `sendToken`.
Both imported callees are passed explicitly as function parameters `gAU` and
`sT` (their awaited result types), so the two dispatchers can be compared
against the same callees; the error type of the callees is abstract. -/

/-- The `url` component of the internal options used by the dispatchers. -/
structure UrlInfo where
  origin : String
deriving DecidableEq, Repr

/-- The provider slice the dispatchers inspect. -/
structure ProviderRef where
  type : String
deriving DecidableEq, Repr

/-- The slice of `InternalOptions` the sign-in dispatchers read. -/
structure SignInOptions where
  url : UrlInfo
  basePath : String
  provider : Option ProviderRef

/-- The slice of `RequestInternal` used by sign-in: the query string and the
e-mail field of the body. -/
structure RequestInternal where
  query : List (String × String)
  bodyEmail : Option String

/-- `ResponseInternal` as the dispatchers build it. -/
structure ResponseInternal where
  redirect : String
  cookies : List Cookie
deriving DecidableEq, Repr

/-- The awaited result of `getAuthorizationUrl`. -/
structure AuthUrlResult where
  redirect : String
  cookies : List Cookie
deriving DecidableEq, Repr

/-- The awaited result of `sendToken` (a redirect-only response). -/
structure TokenResponse where
  redirect : String
deriving DecidableEq, Repr

/-- `authorized` from `actions/authorized/index.ts`. -/
def authorized {ε : Type}
    (gAU : List (String × String) → SignInOptions → Except ε AuthUrlResult)
    (sT : RequestInternal → SignInOptions → Except ε TokenResponse)
    (request : RequestInternal) (cookies : List Cookie)
    (options : SignInOptions) : Except ε ResponseInternal :=
  match options.provider with
  | none =>
    .ok { redirect := options.url.origin ++ options.basePath ++ "/authorized",
          cookies }
  | some provider =>
    if provider.type = "oauth" ∨ provider.type = "oidc" then
      (gAU request.query options).map fun r =>
        { redirect := r.redirect, cookies := cookies ++ r.cookies }
    else if provider.type = "email" then
      (sT request options).map fun r => { redirect := r.redirect, cookies }
    else
      .ok { redirect := options.url.origin ++ options.basePath ++ "/authorized",
            cookies }

/-- The legacy dispatcher `signin`, identical up to the fallback path. -/
def signin {ε : Type}
    (gAU : List (String × String) → SignInOptions → Except ε AuthUrlResult)
    (sT : RequestInternal → SignInOptions → Except ε TokenResponse)
    (request : RequestInternal) (cookies : List Cookie)
    (options : SignInOptions) : Except ε ResponseInternal :=
  match options.provider with
  | none =>
    .ok { redirect := options.url.origin ++ options.basePath ++ "/signin",
          cookies }
  | some provider =>
    if provider.type = "oauth" ∨ provider.type = "oidc" then
      (gAU request.query options).map fun r =>
        { redirect := r.redirect, cookies := cookies ++ r.cookies }
    else if provider.type = "email" then
      (sT request options).map fun r => { redirect := r.redirect, cookies }
    else
      .ok { redirect := options.url.origin ++ options.basePath ++ "/signin",
            cookies }

/-- C2: `authorized` falls back to a redirect to
`origin ++ basePath ++ "/authorized"` with the input cookies unchanged when
the provider is absent or of an unhandled type; for an oauth/oidc provider it
redirects to the provider authorization URL with the generated check cookies
appended to the input cookies; for an email provider it returns the result of
`sendToken` with the input cookies attached. -/
theorem C2_authorized_dispatch {ε : Type}
    (gAU : List (String × String) → SignInOptions → Except ε AuthUrlResult)
    (sT : RequestInternal → SignInOptions → Except ε TokenResponse)
    (request : RequestInternal) (cookies : List Cookie)
    (options : SignInOptions) :
    ((options.provider = none ∨ ∃ p, options.provider = some p ∧
        p.type ≠ "oauth" ∧ p.type ≠ "oidc" ∧ p.type ≠ "email") →
      authorized gAU sT request cookies options =
        .ok { redirect := options.url.origin ++ options.basePath ++ "/authorized",
              cookies }) ∧
    (∀ p, options.provider = some p → (p.type = "oauth" ∨ p.type = "oidc") →
      ∀ r, gAU request.query options = .ok r →
        authorized gAU sT request cookies options =
          .ok { redirect := r.redirect, cookies := cookies ++ r.cookies }) ∧
    (∀ p, options.provider = some p → p.type = "email" →
      ∀ r, sT request options = .ok r →
        authorized gAU sT request cookies options =
          .ok { redirect := r.redirect, cookies }) := by
  refine ⟨?_, ?_, ?_⟩
  · rintro (hnone | ⟨p, hp, h1, h2, h3⟩)
    · unfold authorized
      rw [hnone]
    · have hno : ¬(p.type = "oauth" ∨ p.type = "oidc") := by
        rintro (h | h)
        · exact h1 h
        · exact h2 h
      unfold authorized
      rw [hp]
      simp only
      rw [if_neg hno, if_neg h3]
  · intro p hp htype r hr
    unfold authorized
    rw [hp]
    simp only
    rw [if_pos htype, hr]
    rfl
  · intro p hp htype r hr
    unfold authorized
    rw [hp]
    simp only
    rw [if_neg (by rw [htype]; decide), if_pos htype, hr]
    rfl

/-- Concrete instantiation of C2 (the email branch). -/
theorem C2_authorized_dispatch_witness :
    authorized (ε := String)
      (fun _ _ => .ok { redirect := "https://p.example/auth", cookies := [] })
      (fun _ _ => .ok { redirect := "https://app.example/verify-request" })
      { query := [], bodyEmail := some "a@b" } []
      { url := { origin := "https://app.example" }, basePath := "/auth",
        provider := some { type := "email" } } =
    .ok { redirect := "https://app.example/verify-request", cookies := [] } :=
  (C2_authorized_dispatch _ _ _ _ _).2.2 { type := "email" } rfl rfl _ rfl

/-- C9: `signin` and `authorized` agree on every request whose provider type
is oauth, oidc or email, and differ exactly in the fallback redirect path:
`basePath ++ "/signin"` versus `basePath ++ "/authorized"` under the origin. -/
theorem C9_signin_authorized_equiv {ε : Type}
    (gAU : List (String × String) → SignInOptions → Except ε AuthUrlResult)
    (sT : RequestInternal → SignInOptions → Except ε TokenResponse)
    (request : RequestInternal) (cookies : List Cookie)
    (options : SignInOptions) :
    (∀ p, options.provider = some p →
      (p.type = "oauth" ∨ p.type = "oidc" ∨ p.type = "email") →
      signin gAU sT request cookies options =
        authorized gAU sT request cookies options) ∧
    ((options.provider = none ∨ ∃ p, options.provider = some p ∧
        p.type ≠ "oauth" ∧ p.type ≠ "oidc" ∧ p.type ≠ "email") →
      signin gAU sT request cookies options =
        .ok { redirect := options.url.origin ++ options.basePath ++ "/signin",
              cookies } ∧
      authorized gAU sT request cookies options =
        .ok { redirect := options.url.origin ++ options.basePath ++ "/authorized",
              cookies }) := by
  constructor
  · intro p hp htype
    unfold signin authorized
    rw [hp]
    simp only
    rcases htype with h | h | h
    · rw [if_pos (Or.inl h), if_pos (Or.inl h)]
    · rw [if_pos (Or.inr h), if_pos (Or.inr h)]
    · have hno : ¬(p.type = "oauth" ∨ p.type = "oidc") := by
        rw [h]; decide
      rw [if_neg hno, if_pos h, if_neg hno, if_pos h]
  · rintro (hnone | ⟨p, hp, h1, h2, h3⟩)
    · unfold signin authorized
      rw [hnone]
      exact ⟨rfl, rfl⟩
    · have hno : ¬(p.type = "oauth" ∨ p.type = "oidc") := by
        rintro (h | h)
        · exact h1 h
        · exact h2 h
      unfold signin authorized
      rw [hp]
      simp only
      rw [if_neg hno, if_neg h3, if_neg hno, if_neg h3]
      exact ⟨rfl, rfl⟩

/-- Concrete instantiation of C9 (oauth branch agreement). -/
theorem C9_signin_authorized_equiv_witness :
    signin (ε := String)
      (fun _ _ => .ok { redirect := "https://p.example/auth",
                        cookies := [{ name := "st", value := "v" }] })
      (fun _ _ => .ok { redirect := "r" })
      { query := [], bodyEmail := none } []
      { url := { origin := "https://app.example" }, basePath := "/auth",
        provider := some { type := "oauth" } } =
    authorized (ε := String)
      (fun _ _ => .ok { redirect := "https://p.example/auth",
                        cookies := [{ name := "st", value := "v" }] })
      (fun _ _ => .ok { redirect := "r" })
      { query := [], bodyEmail := none } []
      { url := { origin := "https://app.example" }, basePath := "/auth",
        provider := some { type := "oauth" } } :=
  (C9_signin_authorized_equiv _ _ _ _ _).1 { type := "oauth" } rfl (Or.inl rfl)

/-! ## `sendToken` (`actions/authorized/send-token.ts`)

External effects are delivered through a `SendTokenEnv` oracle record
(randomness, clock, `createHash` from `utils/web.ts`, the adapter lookup and
the user-configured callbacks), and the two awaited effect calls
(`sendVerificationRequest`, `createVerificationToken`) are recorded in an
effect list.  Query strings are serialized without percent-encoding, which
the recorded values never need. -/

/-- The user record the adapter returns (the fields `sendToken` reads). -/
structure AdapterUser where
  id : String
  email : String
deriving DecidableEq, Repr

/-- The account object `sendToken` builds for the signin callback. -/
structure Account where
  providerAccountId : String
  userId : String
  type : String
  provider : String
deriving DecidableEq, Repr

/-- Outcome of awaiting the user-configured `callbacks.signin`: it may throw,
return a boolean, or return a string (a redirect target). -/
inductive CbResult
  | thrown (e : String)
  | retBool (b : Bool)
  | retString (s : String)
deriving DecidableEq, Repr

/-- The e-mail provider configuration slice `sendToken` reads.
`generateVerificationToken` holds the awaited result of the optional
user-supplied generator. -/
structure EmailProvider where
  id : String
  type : String
  maxAge : Option Int
  secret : Option String
  normalizeIdentifier : Option (String → Except String String)
  generateVerificationToken : Option String

/-- The slice of `InternalOptions` for the email flow. -/
structure EmailOptions where
  provider : EmailProvider
  secret : String
  url : UrlInfo
  basePath : String
  callbackUrl : String

/-- Oracles for the external calls `sendToken` awaits. -/
structure SendTokenEnv where
  randomUUID : String
  randomString32 : String
  now : Int
  createHash : String → String
  getUserByEmail : String → Option AdapterUser
  signinCb : AdapterUser → Account → CbResult
  redirectCb : String → String → String

/-- The two recorded side effects of `sendToken`. -/
inductive EmailEffect
  | sendVerificationRequest (identifier token url : String) (expires : Int)
  | createVerificationToken (identifier token : String) (expires : Int)
deriving DecidableEq, Repr

/-- The errors `sendToken` can throw: `SignInCallbackError` or the plain
`Error` thrown by the normalizer. -/
inductive SendTokenError
  | signInCallback (e : String)
  | other (e : String)
deriving DecidableEq, Repr

/-- `URLSearchParams` serialization, without percent-encoding. -/
def urlSearchParams (ps : List (String × String)) : String :=
  String.intercalate "&" (ps.map fun p => p.1 ++ "=" ++ p.2)

/-- The verification token: the optional user generator, else the 32-char
random string. -/
def tokenOf (env : SendTokenEnv) (options : EmailOptions) : String :=
  options.provider.generateVerificationToken.getD env.randomString32

/-- The signing secret: the provider secret, else the global secret. -/
def secretOf (options : EmailOptions) : String :=
  options.provider.secret.getD options.secret

/-- Expiry in milliseconds: now plus `maxAge` seconds (one day by default). -/
def expiresOf (env : SendTokenEnv) (options : EmailOptions) : Int :=
  env.now + (options.provider.maxAge.getD 86400) * 1000

/-- The user: the adapter lookup by e-mail, else a fresh default user. -/
def userOf (env : SendTokenEnv) (email : String) : AdapterUser :=
  (env.getUserByEmail email).getD { id := env.randomUUID, email }

/-- The account object passed to the signin callback. -/
def accountOf (env : SendTokenEnv) (options : EmailOptions) (email : String) :
    Account :=
  { providerAccountId := email, userId := (userOf env email).id,
    type := "email", provider := options.provider.id }

/-- The accepted branch of `sendToken`: fire the verification e-mail and
store the hashed token, then redirect to the verify-request page. -/
def sendTokenAccepted (env : SendTokenEnv) (options : EmailOptions)
    (email : String) : TokenResponse × List EmailEffect :=
  ({ redirect := options.url.origin ++ options.basePath ++ "/verify-request?" ++
      urlSearchParams
        [("provider", options.provider.id), ("type", options.provider.type)] },
   [ .sendVerificationRequest email (tokenOf env options)
       (options.url.origin ++ options.basePath ++ "/callback/" ++
         options.provider.id ++ "?" ++
         urlSearchParams [("callbackUrl", options.callbackUrl),
           ("token", tokenOf env options), ("email", email)])
       (expiresOf env options),
     .createVerificationToken email
       (env.createHash (tokenOf env options ++ secretOf options))
       (expiresOf env options) ])

/-- `sendToken` after the e-mail has been normalized: consult the signin
callback and dispatch on its (possibly falsy) result. -/
def sendTokenWithEmail (env : SendTokenEnv) (options : EmailOptions)
    (email : String) :
    Except SendTokenError (TokenResponse × List EmailEffect) :=
  match env.signinCb (userOf env email) (accountOf env options email) with
  | .thrown e => .error (.signInCallback e)
  | .retBool false => .error (.signInCallback "AccessDenied")
  | .retString s =>
    if s = "" then .error (.signInCallback "AccessDenied")
    else .ok ({ redirect := env.redirectCb s options.url.origin }, [])
  | .retBool true => .ok (sendTokenAccepted env options email)

/-- `sendToken`: normalize the body e-mail (the provider normalizer, else
`defaultNormalizer`), then run the callback-guarded flow. -/
def sendToken (env : SendTokenEnv) (request : RequestInternal)
    (options : EmailOptions) :
    Except SendTokenError (TokenResponse × List EmailEffect) :=
  match (options.provider.normalizeIdentifier.getD defaultNormalizer)
      (request.bodyEmail.getD "") with
  | .error e => .error (.other e)
  | .ok email => sendTokenWithEmail env options email

theorem sendToken_eq_of_norm (env : SendTokenEnv) (request : RequestInternal)
    (options : EmailOptions) (email : String)
    (hnorm : (options.provider.normalizeIdentifier.getD defaultNormalizer)
      (request.bodyEmail.getD "") = .ok email) :
    sendToken env request options = sendTokenWithEmail env options email := by
  unfold sendToken
  rw [hnorm]

/-- C4: whenever the signin callback accepts (returns `true`), `sendToken`
stores via the adapter a verification token whose stored value is the hash of
the raw token concatenated with the secret, with expiry now plus
`provider.maxAge` seconds (86400 when absent), and returns a redirect to
`baseUrl ++ "/verify-request"` carrying the provider id and type as query
parameters. -/
theorem C4_sendToken_stores_hashed_token (env : SendTokenEnv)
    (request : RequestInternal) (options : EmailOptions) (email : String)
    (hnorm : (options.provider.normalizeIdentifier.getD defaultNormalizer)
      (request.bodyEmail.getD "") = .ok email)
    (hcb : env.signinCb (userOf env email) (accountOf env options email) =
      .retBool true) :
    ∃ resp effs, sendToken env request options = .ok (resp, effs) ∧
      EmailEffect.createVerificationToken email
        (env.createHash (tokenOf env options ++ secretOf options))
        (env.now + (options.provider.maxAge.getD 86400) * 1000) ∈ effs ∧
      resp.redirect = options.url.origin ++ options.basePath ++
        "/verify-request?" ++ urlSearchParams
          [("provider", options.provider.id), ("type", options.provider.type)] := by
  rw [sendToken_eq_of_norm env request options email hnorm]
  unfold sendTokenWithEmail
  rw [hcb]
  refine ⟨(sendTokenAccepted env options email).1,
    (sendTokenAccepted env options email).2, rfl, ?_, rfl⟩
  unfold sendTokenAccepted expiresOf
  simp

/-- Concrete instantiation of C4. -/
theorem C4_sendToken_stores_hashed_token_witness :
    ∃ resp effs,
      sendToken
        { randomUUID := "uuid", randomString32 := "tok", now := 1000,
          createHash := fun s => "#" ++ s, getUserByEmail := fun _ => none,
          signinCb := fun _ _ => .retBool true, redirectCb := fun u _ => u }
        { query := [], bodyEmail := some "a@b" }
        { provider :=
            { id := "email", type := "email", maxAge := none,
              secret := none, normalizeIdentifier := none,
              generateVerificationToken := none },
          secret := "s", url := { origin := "https://app.example" },
          basePath := "/auth", callbackUrl := "https://app.example/" } =
        .ok (resp, effs) ∧
      EmailEffect.createVerificationToken "a@b" ("#" ++ ("tok" ++ "s"))
        (1000 + 86400 * 1000) ∈ effs ∧
      resp.redirect = "https://app.example" ++ "/auth" ++ "/verify-request?" ++
        urlSearchParams [("provider", "email"), ("type", "email")] :=
  C4_sendToken_stores_hashed_token _ _ _ "a@b" rfl rfl

theorem sendTokenWithEmail_thrown (env : SendTokenEnv) (options : EmailOptions)
    (email e : String)
    (hcb : env.signinCb (userOf env email) (accountOf env options email) =
      .thrown e) :
    sendTokenWithEmail env options email = .error (.signInCallback e) := by
  unfold sendTokenWithEmail
  rw [hcb]

theorem sendTokenWithEmail_false (env : SendTokenEnv) (options : EmailOptions)
    (email : String)
    (hcb : env.signinCb (userOf env email) (accountOf env options email) =
      .retBool false) :
    sendTokenWithEmail env options email =
      .error (.signInCallback "AccessDenied") := by
  unfold sendTokenWithEmail
  rw [hcb]

theorem sendTokenWithEmail_true (env : SendTokenEnv) (options : EmailOptions)
    (email : String)
    (hcb : env.signinCb (userOf env email) (accountOf env options email) =
      .retBool true) :
    sendTokenWithEmail env options email = .ok (sendTokenAccepted env options email) := by
  unfold sendTokenWithEmail
  rw [hcb]

theorem sendTokenWithEmail_string (env : SendTokenEnv) (options : EmailOptions)
    (email s : String)
    (hcb : env.signinCb (userOf env email) (accountOf env options email) =
      .retString s) :
    sendTokenWithEmail env options email =
      if s = "" then .error (.signInCallback "AccessDenied")
      else .ok ({ redirect := env.redirectCb s options.url.origin }, []) := by
  unfold sendTokenWithEmail
  rw [hcb]

/-- C5 (amended): `sendToken` throws `SignInCallbackError` exactly when the
signin callback throws or returns a falsy value, i.e. `false` or the empty
string; when the callback returns a non-empty string, `sendToken` returns a
redirect computed by `callbacks.redirect` from that string and the origin,
with no verification e-mail sent and no verification token created.  (The
claim as stated, with "returns false" alone, fails on the empty string, see
the counterexample.) -/
theorem C5_sendToken_callback_errors (env : SendTokenEnv)
    (request : RequestInternal) (options : EmailOptions) (email : String)
    (hnorm : (options.provider.normalizeIdentifier.getD defaultNormalizer)
      (request.bodyEmail.getD "") = .ok email) :
    ((∃ e, sendToken env request options = .error (.signInCallback e)) ↔
      ((∃ e, env.signinCb (userOf env email) (accountOf env options email) =
          .thrown e) ∨
        env.signinCb (userOf env email) (accountOf env options email) =
          .retBool false ∨
        env.signinCb (userOf env email) (accountOf env options email) =
          .retString "")) ∧
    (∀ s, s ≠ "" →
      env.signinCb (userOf env email) (accountOf env options email) =
        .retString s →
      sendToken env request options =
        .ok ({ redirect := env.redirectCb s options.url.origin }, [])) := by
  rw [sendToken_eq_of_norm env request options email hnorm]
  constructor
  · cases hcb : env.signinCb (userOf env email) (accountOf env options email) with
    | thrown e =>
      rw [sendTokenWithEmail_thrown env options email e hcb]
      constructor
      · intro _
        exact Or.inl ⟨e, rfl⟩
      · intro _
        exact ⟨e, rfl⟩
    | retBool b =>
      cases b with
      | false =>
        rw [sendTokenWithEmail_false env options email hcb]
        constructor
        · intro _
          exact Or.inr (Or.inl rfl)
        · intro _
          exact ⟨"AccessDenied", rfl⟩
      | true =>
        rw [sendTokenWithEmail_true env options email hcb]
        constructor
        · rintro ⟨e, he⟩
          cases he
        · rintro (⟨e, he⟩ | he | he) <;> cases he
    | retString s =>
      rw [sendTokenWithEmail_string env options email s hcb]
      by_cases hs : s = ""
      · subst hs
        rw [if_pos rfl]
        constructor
        · intro _
          exact Or.inr (Or.inr rfl)
        · intro _
          exact ⟨"AccessDenied", rfl⟩
      · rw [if_neg hs]
        constructor
        · rintro ⟨e, he⟩
          cases he
        · rintro (⟨e, he⟩ | he | he)
          · cases he
          · cases he
          · injection he with h
            exact absurd h hs
  · intro s hs hcb
    rw [sendTokenWithEmail_string env options email s hcb, if_neg hs]

/-- C5 counterexample to the claim as stated: a signin callback that returns
the empty string (a string, not `false`, and no exception) still makes
`sendToken` throw `SignInCallbackError`, because the empty string is falsy. -/
theorem C5_sendToken_counterexample :
    sendToken
      { randomUUID := "uuid", randomString32 := "tok", now := 1000,
        createHash := fun s => "#" ++ s, getUserByEmail := fun _ => none,
        signinCb := fun _ _ => .retString "", redirectCb := fun u _ => u }
      { query := [], bodyEmail := some "a@b" }
      { provider :=
          { id := "email", type := "email", maxAge := none,
            secret := none, normalizeIdentifier := none,
            generateVerificationToken := none },
        secret := "s", url := { origin := "https://app.example" },
        basePath := "/auth", callbackUrl := "https://app.example/" } =
      .error (.signInCallback "AccessDenied") ∧
    (∀ u a,
      SendTokenEnv.signinCb
        { randomUUID := "uuid", randomString32 := "tok", now := 1000,
          createHash := fun s => "#" ++ s, getUserByEmail := fun _ => none,
          signinCb := fun _ _ => .retString "", redirectCb := fun u _ => u }
        u a = .retString "") :=
  ⟨rfl, fun _ _ => rfl⟩

/-- A concrete environment whose signin callback throws. -/
def throwingEnv : SendTokenEnv :=
  { randomUUID := "uuid", randomString32 := "tok", now := 1000,
    createHash := fun s => "#" ++ s, getUserByEmail := fun _ => none,
    signinCb := fun _ _ => .thrown "boom", redirectCb := fun u _ => u }

/-- A concrete e-mail sign-in request. -/
def emailRequest : RequestInternal :=
  { query := [], bodyEmail := some "a@b" }

/-- A concrete e-mail options record with the default normalizer. -/
def emailOptions : EmailOptions :=
  { provider :=
      { id := "email", type := "email", maxAge := none,
        secret := none, normalizeIdentifier := none,
        generateVerificationToken := none },
    secret := "s", url := { origin := "https://app.example" },
    basePath := "/auth", callbackUrl := "https://app.example/" }

/-- Concrete instantiation of the amended C5 theorem. -/
theorem C5_sendToken_callback_errors_witness :
    ∃ e, sendToken throwingEnv emailRequest emailOptions =
      .error (.signInCallback e) :=
  (C5_sendToken_callback_errors throwingEnv emailRequest emailOptions
    "a@b" rfl).1.mpr (Or.inl ⟨"boom", rfl⟩)

/-! ## Query parameters

`URLSearchParams` and plain-object merging (`Object.assign`, object spread)
are modelled on association lists.  `setParam` keeps one binding per key;
entry order is not significant for any verified property. -/

/-- `URLSearchParams.set`: drop every binding of the key, append the new one. -/
def setParam (ps : List (String × String)) (k v : String) :
    List (String × String) :=
  (ps.filter fun p => p.1 != k) ++ [(k, v)]

/-- `URLSearchParams.get`. -/
def getParam (ps : List (String × String)) (k : String) : Option String :=
  (ps.find? fun p => p.1 == k).map fun p => p.2

/-- `URLSearchParams.has`. -/
def hasParam (ps : List (String × String)) (k : String) : Bool :=
  (getParam ps k).isSome

/-- Merging updates into an object, last binding of a key winning. -/
def objAssign (base upd : List (String × String)) : List (String × String) :=
  upd.foldl (fun acc kv => setParam acc kv.1 kv.2) base

/-- Every key occurs at most once. -/
def uniqueKeys (ps : List (String × String)) : Prop :=
  (ps.map Prod.fst).Nodup

theorem getParam_setParam_same (ps : List (String × String)) (k v : String) :
    getParam (setParam ps k v) k = some v := by
  unfold getParam setParam
  induction ps with
  | nil => simp
  | cons hd tl ih =>
    by_cases h : hd.1 = k
    · simp [List.filter_cons, h, ih]
    · simp [List.filter_cons, h, ih]

theorem getParam_setParam_other (ps : List (String × String)) (k v k' : String)
    (h : k' ≠ k) : getParam (setParam ps k v) k' = getParam ps k' := by
  unfold getParam setParam
  induction ps with
  | nil => simp [Ne.symm h]
  | cons hd tl ih =>
    by_cases hh : hd.1 = k'
    · have hne : hd.1 ≠ k := by rw [hh]; exact h
      have hb : (hd.1 == k') = true := by simp [hh]
      have hbne : (hd.1 != k) = true := by simp [hne]
      simp [List.filter_cons, hb, hbne]
    · by_cases hk : hd.1 = k
      · simpa [List.filter_cons, hk, hh, Ne.symm h] using ih
      · simpa [List.filter_cons, hk, hh] using ih

theorem getParam_objAssign_of_not_mem (k : String) :
    ∀ (upd base : List (String × String)), (∀ p ∈ upd, p.1 ≠ k) →
      getParam (objAssign base upd) k = getParam base k := by
  intro upd
  induction upd with
  | nil => intro base _; rfl
  | cons hd tl ih =>
    intro base h
    have h1 : hd.1 ≠ k := h hd (List.mem_cons_self hd tl)
    have h2 : ∀ p ∈ tl, p.1 ≠ k := fun p hp => h p (List.mem_cons_of_mem hd hp)
    unfold objAssign
    rw [List.foldl_cons]
    have := ih (setParam base hd.1 hd.2) h2
    unfold objAssign at this
    rw [this]
    exact getParam_setParam_other base hd.1 hd.2 k (fun hh => h1 hh.symm)

theorem uniqueKeys_setParam (ps : List (String × String)) (k v : String)
    (h : uniqueKeys ps) : uniqueKeys (setParam ps k v) := by
  unfold uniqueKeys setParam
  rw [List.map_append, List.nodup_append]
  refine ⟨?_, by simp, ?_⟩
  · exact ((List.filter_sublist ps).map Prod.fst).nodup h
  · intro a ha
    simp only [List.map_cons, List.map_nil, List.mem_singleton]
    obtain ⟨p, hp, hpa⟩ := List.mem_map.mp ha
    have := List.of_mem_filter hp
    intro hak
    subst hpa hak
    simp at this

theorem uniqueKeys_objAssign :
    ∀ (upd base : List (String × String)), uniqueKeys base →
      uniqueKeys (objAssign base upd) := by
  intro upd
  induction upd with
  | nil => intro base h; exact h
  | cons hd tl ih =>
    intro base h
    unfold objAssign
    rw [List.foldl_cons]
    exact ih (setParam base hd.1 hd.2) (uniqueKeys_setParam base hd.1 hd.2 h)

theorem getParam_objAssign_of_unique_some (k v : String) :
    ∀ (upd base : List (String × String)), uniqueKeys upd →
      getParam upd k = some v →
      getParam (objAssign base upd) k = some v := by
  intro upd
  induction upd with
  | nil =>
    intro base _ h
    cases h
  | cons hd tl ih =>
    intro base hu h
    unfold objAssign
    rw [List.foldl_cons]
    by_cases hk : hd.1 = k
    · have hv : v = hd.2 := by
        unfold getParam at h
        simp [hk] at h
        exact h.symm
      have hnot : ∀ p ∈ tl, p.1 ≠ k := by
        intro p hp hpk
        unfold uniqueKeys at hu
        rw [List.map_cons, List.nodup_cons] at hu
        exact hu.1 (hk ▸ hpk ▸ List.mem_map_of_mem Prod.fst hp)
      have := getParam_objAssign_of_not_mem k tl (setParam base hd.1 hd.2) hnot
      unfold objAssign at this
      rw [this, hk, hv]
      exact getParam_setParam_same base k hd.2
    · have htl : getParam tl k = some v := by
        unfold getParam at h ⊢
        simpa [hk] using h
      have hu' : uniqueKeys tl := by
        unfold uniqueKeys at hu ⊢
        rw [List.map_cons, List.nodup_cons] at hu
        exact hu.2
      exact ih (setParam base hd.1 hd.2) hu' htl

theorem uniqueKeys_nil : uniqueKeys [] := List.nodup_nil

theorem objAssign_append (base u1 u2 : List (String × String)) :
    objAssign base (u1 ++ u2) = objAssign (objAssign base u1) u2 := by
  unfold objAssign
  rw [List.foldl_append]

/-! ## `getAuthorizationUrl` (`actions/authorized/signin-url.ts`)

URLs are modelled structurally as a host, a base (scheme, host and path) and
a query parameter list; `url.toString()` re-serializes the query.  The
oauth4webapi discovery call and the `checks.state/pkce/nonce.create` helpers
(whose sources live outside this package slice) are oracle fields of
`OAuthEnv`; `nonceCreate` receives the current `provider.checks` list because
the source mutates it before the nonce step in the downgraded-oidc case. -/

/-- A URL: host, base (everything before the query) and query parameters. -/
structure URLM where
  host : String
  base : String
  params : List (String × String)
deriving DecidableEq, Repr

/-- The discovered authorization-server metadata fields the code reads. -/
structure ServerMetadata where
  authorization_endpoint : Option URLM
  code_challenge_methods_supported : Option (List String)
deriving DecidableEq, Repr

/-- The provider slice `getAuthorizationUrl` reads. -/
structure OAuthProvider where
  authorizationUrl : Option URLM
  authorizationParams : List (String × String)
  issuer : Option String
  callbackUrl : String
  clientId : String
  redirectProxyUrl : Option String
  checks : List String
  type : String
deriving DecidableEq, Repr

/-- The slice of `InternalOptions` for the oauth/oidc flow. -/
structure OAuthOptions where
  provider : OAuthProvider
  isOnRedirectProxy : Bool
deriving DecidableEq, Repr

/-- A generated check (state, pkce or nonce): its value and its cookie. -/
structure CheckValue where
  value : String
  cookie : Cookie
deriving DecidableEq, Repr

/-- Oracles for discovery and the check helpers. -/
structure OAuthEnv where
  discovery : Except String ServerMetadata
  stateCreate : Option CheckValue
  pkceCreate : CheckValue
  nonceCreate : List String → Option CheckValue

/-- The failures of `normalizeOAuth`. -/
inductive OAuthUrlError
  | discoveryFailed (e : String)
  | typeError (e : String)
deriving DecidableEq, Repr

/-- The discovery path of `normalizeOAuth`: fetch and process the issuer
metadata and take its authorization endpoint. -/
def discoveredAuth (env : OAuthEnv) :
    Except OAuthUrlError (URLM × Option ServerMetadata) :=
  match env.discovery with
  | .error e => .error (.discoveryFailed e)
  | .ok as =>
    match as.authorization_endpoint with
    | none => .error (.typeError
        "Authorization server did not provide an authorization endpoint.")
    | some u => .ok (u, some as)

/-- `normalizeOAuth`: use the configured authorization URL unless it is
absent or points at the `authjs.dev` placeholder host, in which case run
discovery. -/
def normalizeOAuth (env : OAuthEnv) (provider : OAuthProvider) :
    Except OAuthUrlError (URLM × Option ServerMetadata) :=
  match provider.authorizationUrl with
  | none => discoveredAuth env
  | some u => if u.host = "authjs.dev" then discoveredAuth env else .ok (u, none)

/-- `redirect_uri`: the redirect proxy URL when configured and not already on
the proxy, else the provider callback URL. -/
def redirectUriOf (options : OAuthOptions) : String :=
  match options.provider.redirectProxyUrl with
  | some p => if options.isOnRedirectProxy then options.provider.callbackUrl else p
  | none => options.provider.callbackUrl

/-- `Object.fromEntries(provider.authorization?.url.searchParams ?? [])`. -/
def authUrlParams (options : OAuthOptions) : List (String × String) :=
  match options.provider.authorizationUrl with
  | some u => u.params
  | none => []

/-- The merged `params` object: the literal with `response_type`,
`client_id`, `redirect_uri` and the spread provider authorization params,
then `Object.assign` with the configured URL query and the request query,
later keys overriding earlier ones. -/
def mergedParams (query : List (String × String)) (options : OAuthOptions) :
    List (String × String) :=
  objAssign []
    ([("response_type", "code"), ("client_id", options.provider.clientId),
      ("redirect_uri", redirectUriOf options)] ++
      options.provider.authorizationParams ++ authUrlParams options ++ query)

/-- Whether the discovered metadata rules out the S256 PKCE method: metadata
present and its supported methods (an absent list counting as empty) not
containing S256. -/
def pkceExcluded (as : Option ServerMetadata) : Bool :=
  match as with
  | some a => !((a.code_challenge_methods_supported.getD []).contains "S256")
  | none => false

/-- The state step: when a state check is generated, set the `state`
parameter and push its cookie. -/
def stateStep (env : OAuthEnv)
    (x : List (String × String) × List Cookie) :
    List (String × String) × List Cookie :=
  match env.stateCreate with
  | some c => (setParam x.1 "state" c.value, x.2 ++ [c.cookie])
  | none => x

/-- The PKCE step: when the provider checks include pkce and the metadata
does not exclude S256, set `code_challenge` and `code_challenge_method` and
push the pkce cookie. -/
def pkceStep (env : OAuthEnv) (options : OAuthOptions)
    (as : Option ServerMetadata)
    (x : List (String × String) × List Cookie) :
    List (String × String) × List Cookie :=
  if options.provider.checks.contains "pkce" && !(pkceExcluded as) then
    (setParam (setParam x.1 "code_challenge" env.pkceCreate.value)
      "code_challenge_method" "S256",
     x.2 ++ [env.pkceCreate.cookie])
  else x

/-- The provider checks after the PKCE section: an oidc provider whose
server rules out S256 is downgraded to a nonce check. -/
def checksAfterOf (options : OAuthOptions) (as : Option ServerMetadata) :
    List String :=
  if options.provider.checks.contains "pkce" && pkceExcluded as &&
      (options.provider.type == "oidc") then
    ["nonce"]
  else options.provider.checks

/-- The nonce step: when a nonce check is generated (against the possibly
downgraded checks), set the `nonce` parameter and push its cookie. -/
def nonceStep (env : OAuthEnv) (options : OAuthOptions)
    (as : Option ServerMetadata)
    (x : List (String × String) × List Cookie) :
    List (String × String) × List Cookie :=
  match env.nonceCreate (checksAfterOf options as) with
  | some c => (setParam x.1 "nonce" c.value, x.2 ++ [c.cookie])
  | none => x

/-- The state/pkce/nonce section in source order, starting from an empty
cookie list. -/
def applyChecks (env : OAuthEnv) (options : OAuthOptions)
    (as : Option ServerMetadata) (ps : List (String × String)) :
    List (String × String) × List Cookie :=
  nonceStep env options as (pkceStep env options as (stateStep env (ps, [])))

/-- The final scope default: an oidc URL with no scope parameter gets
`openid profile email`. -/
def applyScope (ptype : String) (ps : List (String × String)) :
    List (String × String) :=
  if ptype = "oidc" ∧ hasParam ps "scope" = false then
    setParam ps "scope" "openid profile email"
  else ps

/-- `getAuthorizationUrl`, producing the final URL structurally together
with the generated check cookies. -/
def getAuthorizationUrlCore (env : OAuthEnv)
    (query : List (String × String)) (options : OAuthOptions) :
    Except OAuthUrlError (URLM × List Cookie) :=
  match normalizeOAuth env options.provider with
  | .error e => .error e
  | .ok (url, as) =>
    let ps0 := objAssign url.params (mergedParams query options)
    let res := applyChecks env options as ps0
    let ps2 := applyScope options.provider.type res.1
    .ok ({ url with params := ps2 }, res.2)

/-- `url.toString()`. -/
def urlToString (u : URLM) : String :=
  u.base ++ "?" ++ urlSearchParams u.params

/-- `getAuthorizationUrl` as the source returns it: the serialized redirect
URL and the cookies. -/
def getAuthorizationUrl (env : OAuthEnv) (query : List (String × String))
    (options : OAuthOptions) : Except OAuthUrlError AuthUrlResult :=
  match getAuthorizationUrlCore env query options with
  | .error e => .error e
  | .ok (u, cookies) => .ok { redirect := urlToString u, cookies }

/-! ### Lemmas about the authorization-URL construction -/

theorem stateStep_getParam_other (env : OAuthEnv)
    (x : List (String × String) × List Cookie) (k : String)
    (h : k ≠ "state") :
    getParam (stateStep env x).1 k = getParam x.1 k := by
  unfold stateStep
  cases env.stateCreate with
  | none => rfl
  | some c => exact getParam_setParam_other x.1 "state" c.value k h

theorem pkceStep_getParam_other (env : OAuthEnv) (options : OAuthOptions)
    (as : Option ServerMetadata)
    (x : List (String × String) × List Cookie) (k : String)
    (h1 : k ≠ "code_challenge") (h2 : k ≠ "code_challenge_method") :
    getParam (pkceStep env options as x).1 k = getParam x.1 k := by
  unfold pkceStep
  split
  · exact (getParam_setParam_other _ _ _ k h2).trans
      (getParam_setParam_other _ _ _ k h1)
  · rfl

theorem nonceStep_getParam_other (env : OAuthEnv) (options : OAuthOptions)
    (as : Option ServerMetadata)
    (x : List (String × String) × List Cookie) (k : String)
    (h : k ≠ "nonce") :
    getParam (nonceStep env options as x).1 k = getParam x.1 k := by
  unfold nonceStep
  cases env.nonceCreate (checksAfterOf options as) with
  | none => rfl
  | some c => exact getParam_setParam_other x.1 "nonce" c.value k h

theorem nonceStep_cookies_mono (env : OAuthEnv) (options : OAuthOptions)
    (as : Option ServerMetadata)
    (x : List (String × String) × List Cookie) (c : Cookie)
    (h : c ∈ x.2) : c ∈ (nonceStep env options as x).2 := by
  unfold nonceStep
  cases env.nonceCreate (checksAfterOf options as) with
  | none => exact h
  | some c' => exact List.mem_append_left _ h

theorem applyChecks_getParam_other (env : OAuthEnv) (options : OAuthOptions)
    (as : Option ServerMetadata) (ps : List (String × String)) (k : String)
    (h1 : k ≠ "state") (h2 : k ≠ "code_challenge")
    (h3 : k ≠ "code_challenge_method") (h4 : k ≠ "nonce") :
    getParam (applyChecks env options as ps).1 k = getParam ps k := by
  unfold applyChecks
  rw [nonceStep_getParam_other env options as _ k h4,
    pkceStep_getParam_other env options as _ k h2 h3,
    stateStep_getParam_other env _ k h1]

theorem applyChecks_pkce (env : OAuthEnv) (options : OAuthOptions)
    (as : Option ServerMetadata) (ps : List (String × String))
    (hp : options.provider.checks.contains "pkce" = true)
    (he : pkceExcluded as = false) :
    getParam (applyChecks env options as ps).1 "code_challenge" =
      some env.pkceCreate.value ∧
    getParam (applyChecks env options as ps).1 "code_challenge_method" =
      some "S256" ∧
    env.pkceCreate.cookie ∈ (applyChecks env options as ps).2 := by
  have hcond : (options.provider.checks.contains "pkce" &&
      !(pkceExcluded as)) = true := by
    rw [hp, he]
    rfl
  unfold applyChecks
  have hfst : (pkceStep env options as (stateStep env (ps, []))).1 =
      setParam (setParam (stateStep env (ps, [])).1 "code_challenge"
        env.pkceCreate.value) "code_challenge_method" "S256" := by
    unfold pkceStep
    rw [if_pos hcond]
  have hsnd : (pkceStep env options as (stateStep env (ps, []))).2 =
      (stateStep env (ps, [])).2 ++ [env.pkceCreate.cookie] := by
    unfold pkceStep
    rw [if_pos hcond]
  refine ⟨?_, ?_, ?_⟩
  · rw [nonceStep_getParam_other env options as _ _ (by decide), hfst,
      getParam_setParam_other _ _ _ _ (by decide)]
    exact getParam_setParam_same _ _ _
  · rw [nonceStep_getParam_other env options as _ _ (by decide), hfst]
    exact getParam_setParam_same _ _ _
  · apply nonceStep_cookies_mono
    rw [hsnd]
    exact List.mem_append_right _ (List.mem_singleton.mpr rfl)

theorem applyScope_getParam_other (ptype : String)
    (ps : List (String × String)) (k : String) (h : k ≠ "scope") :
    getParam (applyScope ptype ps) k = getParam ps k := by
  unfold applyScope
  split
  · exact getParam_setParam_other ps "scope" _ k h
  · rfl

theorem applyScope_scope_of_none (ptype : String)
    (ps : List (String × String)) (ht : ptype = "oidc")
    (h : hasParam ps "scope" = false) :
    getParam (applyScope ptype ps) "scope" = some "openid profile email" := by
  unfold applyScope
  rw [if_pos ⟨ht, h⟩]
  exact getParam_setParam_same ps "scope" _

theorem mergedParams_base_key (query : List (String × String))
    (options : OAuthOptions) (k v : String)
    (h : ∀ p ∈ options.provider.authorizationParams ++ authUrlParams options ++
      query, p.1 ≠ k)
    (hbase : getParam (objAssign []
      [("response_type", "code"), ("client_id", options.provider.clientId),
        ("redirect_uri", redirectUriOf options)]) k = some v) :
    getParam (mergedParams query options) k = some v := by
  unfold mergedParams
  rw [List.append_assoc, List.append_assoc, ← List.append_assoc
    options.provider.authorizationParams, objAssign_append,
    getParam_objAssign_of_not_mem k _ _ h]
  exact hbase

theorem mergedParams_response_type (query : List (String × String))
    (options : OAuthOptions)
    (h : ∀ p ∈ options.provider.authorizationParams ++ authUrlParams options ++
      query, p.1 ≠ "response_type") :
    getParam (mergedParams query options) "response_type" = some "code" := by
  apply mergedParams_base_key query options _ _ h
  rw [show objAssign []
      [("response_type", "code"), ("client_id", options.provider.clientId),
        ("redirect_uri", redirectUriOf options)] =
      setParam (setParam (setParam [] "response_type" "code") "client_id"
        options.provider.clientId) "redirect_uri" (redirectUriOf options)
    from rfl]
  rw [getParam_setParam_other _ _ _ _ (by decide),
    getParam_setParam_other _ _ _ _ (by decide)]
  exact getParam_setParam_same _ _ _

theorem mergedParams_client_id (query : List (String × String))
    (options : OAuthOptions)
    (h : ∀ p ∈ options.provider.authorizationParams ++ authUrlParams options ++
      query, p.1 ≠ "client_id") :
    getParam (mergedParams query options) "client_id" =
      some options.provider.clientId := by
  apply mergedParams_base_key query options _ _ h
  rw [show objAssign []
      [("response_type", "code"), ("client_id", options.provider.clientId),
        ("redirect_uri", redirectUriOf options)] =
      setParam (setParam (setParam [] "response_type" "code") "client_id"
        options.provider.clientId) "redirect_uri" (redirectUriOf options)
    from rfl]
  rw [getParam_setParam_other _ _ _ _ (by decide)]
  exact getParam_setParam_same _ _ _

theorem uniqueKeys_mergedParams (query : List (String × String))
    (options : OAuthOptions) : uniqueKeys (mergedParams query options) :=
  uniqueKeys_objAssign _ [] uniqueKeys_nil

/-- The final query parameters of the produced authorization URL. -/
def finalParams (env : OAuthEnv) (options : OAuthOptions)
    (as : Option ServerMetadata) (url : URLM)
    (query : List (String × String)) : List (String × String) :=
  applyScope options.provider.type
    (applyChecks env options as
      (objAssign url.params (mergedParams query options))).1

/-- The cookies returned alongside the produced authorization URL. -/
def finalCookies (env : OAuthEnv) (options : OAuthOptions)
    (as : Option ServerMetadata) (url : URLM)
    (query : List (String × String)) : List Cookie :=
  (applyChecks env options as
    (objAssign url.params (mergedParams query options))).2

/-- C3 (amended): whenever `normalizeOAuth` succeeds, `getAuthorizationUrl`
returns the serialized final URL; its query carries `response_type=code` and
`client_id = provider.clientId` provided no entry of the provider
authorization params, the configured authorization URL query, or the request
query overrides those two keys (an override wins, see the counterexample);
when the provider checks include pkce and the discovered metadata does not
exclude S256, the query carries `code_challenge` and
`code_challenge_method=S256` and the pkce cookie is among the returned
cookies; and an oidc URL still lacking a scope parameter gets scope
`openid profile email`. -/
theorem C3_getAuthorizationUrl_amended (env : OAuthEnv)
    (query : List (String × String)) (options : OAuthOptions) :
    ∀ url as, normalizeOAuth env options.provider = .ok (url, as) →
    ∃ u cs, getAuthorizationUrlCore env query options = .ok (u, cs) ∧
      getAuthorizationUrl env query options =
        .ok { redirect := urlToString u, cookies := cs } ∧
      ((∀ p ∈ options.provider.authorizationParams ++ authUrlParams options ++
          query, p.1 ≠ "response_type" ∧ p.1 ≠ "client_id") →
        getParam u.params "response_type" = some "code" ∧
        getParam u.params "client_id" = some options.provider.clientId) ∧
      (options.provider.checks.contains "pkce" = true →
        pkceExcluded as = false →
        getParam u.params "code_challenge" = some env.pkceCreate.value ∧
        getParam u.params "code_challenge_method" = some "S256" ∧
        env.pkceCreate.cookie ∈ cs) ∧
      (options.provider.type = "oidc" →
        hasParam (applyChecks env options as
          (objAssign url.params (mergedParams query options))).1 "scope" =
            false →
        getParam u.params "scope" = some "openid profile email") := by
  intro url as hn
  have hcore : getAuthorizationUrlCore env query options =
      .ok ({ url with params := finalParams env options as url query },
        finalCookies env options as url query) := by
    unfold getAuthorizationUrlCore
    rw [hn]
    rfl
  refine ⟨_, _, hcore, ?_, ?_, ?_, ?_⟩
  · unfold getAuthorizationUrl
    rw [hcore]
  · intro h
    constructor
    · show getParam (finalParams env options as url query) _ = _
      unfold finalParams
      rw [applyScope_getParam_other _ _ _ (by decide),
        applyChecks_getParam_other env options as _ _ (by decide) (by decide)
          (by decide) (by decide)]
      exact getParam_objAssign_of_unique_some _ _ _ _
        (uniqueKeys_mergedParams query options)
        (mergedParams_response_type query options (fun p hp => (h p hp).1))
    · show getParam (finalParams env options as url query) _ = _
      unfold finalParams
      rw [applyScope_getParam_other _ _ _ (by decide),
        applyChecks_getParam_other env options as _ _ (by decide) (by decide)
          (by decide) (by decide)]
      exact getParam_objAssign_of_unique_some _ _ _ _
        (uniqueKeys_mergedParams query options)
        (mergedParams_client_id query options (fun p hp => (h p hp).2))
  · intro hp he
    obtain ⟨h1, h2, h3⟩ := applyChecks_pkce env options as
      (objAssign url.params (mergedParams query options)) hp he
    refine ⟨?_, ?_, h3⟩
    · show getParam (finalParams env options as url query) _ = _
      unfold finalParams
      rw [applyScope_getParam_other _ _ _ (by decide)]
      exact h1
    · show getParam (finalParams env options as url query) _ = _
      unfold finalParams
      rw [applyScope_getParam_other _ _ _ (by decide)]
      exact h2
  · intro ht hs
    show getParam (finalParams env options as url query) _ = _
    unfold finalParams
    exact applyScope_scope_of_none _ _ ht hs

/-- An oracle environment for the oauth flow with no state and no nonce. -/
def plainOAuthEnv : OAuthEnv :=
  { discovery := .error "unused", stateCreate := none,
    pkceCreate := { value := "challenge",
                    cookie := { name := "pkceCookie", value := "verifier" } },
    nonceCreate := fun _ => none }

/-- An oauth provider with a configured authorization URL and no checks. -/
def plainOAuthOptions : OAuthOptions :=
  { provider :=
      { authorizationUrl :=
          some { host := "p.example", base := "https://p.example/auth",
                 params := [] },
        authorizationParams := [], issuer := none,
        callbackUrl := "https://app.example/cb", clientId := "cid",
        redirectProxyUrl := none, checks := [], type := "oauth" },
    isOnRedirectProxy := false }

/-- The same provider with the pkce check enabled. -/
def pkceOAuthOptions : OAuthOptions :=
  { provider :=
      { authorizationUrl :=
          some { host := "p.example", base := "https://p.example/auth",
                 params := [] },
        authorizationParams := [], issuer := none,
        callbackUrl := "https://app.example/cb", clientId := "cid",
        redirectProxyUrl := none, checks := ["pkce"], type := "oauth" },
    isOnRedirectProxy := false }

/-- C3 counterexample to the claim as stated: a request query entry
`response_type=token` overrides the default, so the produced URL does not
carry `response_type=code`. -/
theorem C3_getAuthorizationUrl_counterexample :
    ∃ u cs, getAuthorizationUrlCore plainOAuthEnv [("response_type", "token")]
        plainOAuthOptions = .ok (u, cs) ∧
      getParam u.params "response_type" = some "token" ∧
      ("token" : String) ≠ "code" := by
  refine ⟨_, _, rfl, rfl, by decide⟩

/-- Concrete instantiation of the amended C3 theorem on a pkce provider. -/
theorem C3_getAuthorizationUrl_witness :
    ∃ u cs, getAuthorizationUrlCore plainOAuthEnv [] pkceOAuthOptions =
        .ok (u, cs) ∧
      getParam u.params "code_challenge" = some "challenge" ∧
      getParam u.params "code_challenge_method" = some "S256" ∧
      getParam u.params "response_type" = some "code" ∧
      Cookie.mk "pkceCookie" "verifier" none ∈ cs := by
  obtain ⟨u, cs, hcore, _, ha, hb, _⟩ :=
    C3_getAuthorizationUrl_amended plainOAuthEnv [] pkceOAuthOptions
      { host := "p.example", base := "https://p.example/auth", params := [] }
      none rfl
  obtain ⟨h1, h2, h3⟩ := hb rfl rfl
  obtain ⟨h4, _⟩ := ha (by intro p hp; exact absurd hp (List.not_mem_nil p))
  exact ⟨u, cs, hcore, h1, h2, h4, h3⟩

/-! ## The `session` action (`actions/session.ts`)

JWT payloads and session bodies are abstract values (`Nat`); the jose decode/encode
calls, the user callbacks, the adapter lookup and the clock are fields of a
`SessEnv` oracle record.  Adapter writes (`deleteSession`, `updateSession`)
and the session event are recorded in an effect list.  The `isUpdate` and
`newSession` parameters only feed the callbacks and are absorbed into the
callback oracles. -/

/-- The session store slice the action reads: the (possibly empty) joined
cookie value, the cleaning cookies of `clean()`, and the chunked cookies of
`chunk(token, { expires })`. -/
structure SessionStore where
  value : String
  cleanCookies : List Cookie
  chunk : String → Int → List Cookie

/-- A stored database session (the field the code inspects). -/
structure DbSession where
  expires : Int
deriving DecidableEq, Repr

/-- The pair returned by `adapter.getSessionAndUser`. -/
structure UserAndSession where
  user : AdapterUser
  session : DbSession
deriving DecidableEq, Repr

/-- The adapter slice used by the database strategy. -/
structure SessionAdapter where
  getSessionAndUser : String → Option UserAndSession

/-- `options.session` and the session cookie name. -/
structure SessionConfig where
  strategy : String
  maxAge : Int
  updateAge : Int
deriving DecidableEq, Repr

/-- The slice of `InternalOptions` the session action reads. -/
structure SessionOptions where
  adapter : Option SessionAdapter
  session : SessionConfig
  cookieName : String

/-- Oracles for the session action: clock, jose decode (which may throw or
return null) and encode, and the jwt/session callbacks. -/
structure SessEnv where
  now : Int
  jwtDecode : String → Except String (Option Nat)
  jwtEncode : Nat → String
  cbJwt : Nat → Option Nat
  cbSessionJwt : Nat → Nat
  cbSessionDb : UserAndSession → Nat

/-- The recorded adapter writes and events of the session action. -/
inductive SessionEffect
  | deleteSession (token : String)
  | updateSession (token : String) (expires : Int)
  | eventsSession
deriving DecidableEq, Repr

/-- The response of the session action. -/
structure SessionResponse where
  body : Option Nat
  headers : List (String × String)
  cookies : List Cookie
deriving DecidableEq, Repr

/-- The JSON content-type header the action always sets. -/
def jsonHeaders : List (String × String) :=
  [("Content-Type", "application/json")]

/-- `handleJWTSession`: decode the token (cleaning the cookie on a decode
error or a null payload), run the jwt callback, and either re-encode and
re-chunk the session cookie or clean it when the callback returns null. -/
def handleJWTSession (env : SessEnv) (options : SessionOptions)
    (store : SessionStore) (cookies : List Cookie) (sessionToken : String) :
    SessionResponse × List SessionEffect :=
  match env.jwtDecode sessionToken with
  | .error _ =>
    ({ body := none, headers := jsonHeaders,
       cookies := cookies ++ store.cleanCookies }, [])
  | .ok none =>
    ({ body := none, headers := jsonHeaders,
       cookies := cookies ++ store.cleanCookies }, [])
  | .ok (some payload) =>
    match env.cbJwt payload with
    | some token =>
      ({ body := some (env.cbSessionJwt token), headers := jsonHeaders,
         cookies := cookies ++ store.chunk (env.jwtEncode token)
           (env.now + options.session.maxAge * 1000) },
       [.eventsSession])
    | none =>
      ({ body := none, headers := jsonHeaders,
         cookies := cookies ++ store.cleanCookies }, [])

/-- `handleDatabaseSession`: look the session up; delete it when already
expired; otherwise refresh it when due, return its payload and re-issue the
session cookie; clean the cookie when no live session remains. -/
def handleDatabaseSession (env : SessEnv) (options : SessionOptions)
    (adapter : SessionAdapter) (store : SessionStore)
    (cookies : List Cookie) (sessionToken : String) :
    SessionResponse × List SessionEffect :=
  match adapter.getSessionAndUser sessionToken with
  | some uas =>
    if uas.session.expires < env.now then
      ({ body := none, headers := jsonHeaders,
         cookies := if sessionToken = "" then cookies
           else cookies ++ store.cleanCookies },
       [.deleteSession sessionToken])
    else
      ({ body := some (env.cbSessionDb uas), headers := jsonHeaders,
         cookies := cookies ++
           [{ name := options.cookieName, value := sessionToken,
              expires := some (env.now + options.session.maxAge * 1000) }] },
       (if uas.session.expires - options.session.maxAge * 1000 +
           options.session.updateAge * 1000 ≤ env.now then
          [.updateSession sessionToken
            (env.now + options.session.maxAge * 1000)]
        else []) ++ [.eventsSession])
  | none =>
    ({ body := none, headers := jsonHeaders,
       cookies := if sessionToken = "" then cookies
         else cookies ++ store.cleanCookies }, [])

/-- The `session` action: an empty store value returns the null response
unchanged; otherwise dispatch on the strategy, with a missing adapter in the
database strategy caught by the outer handler (which returns the null
response with an empty cookie list). -/
def session (env : SessEnv) (options : SessionOptions) (store : SessionStore)
    (cookies : List Cookie) : SessionResponse × List SessionEffect :=
  if store.value = "" then
    ({ body := none, headers := jsonHeaders, cookies }, [])
  else if options.session.strategy = "jwt" then
    handleJWTSession env options store cookies store.value
  else
    match options.adapter with
    | none => ({ body := none, headers := jsonHeaders, cookies := [] }, [])
    | some adapter =>
      handleDatabaseSession env options adapter store cookies store.value

/-- C6: when the session store holds no session token, the session action
returns body `null` with the JSON content type, the cookie list is exactly
the one passed in, and no adapter effect happens. -/
theorem C6_session_no_token (env : SessEnv) (options : SessionOptions)
    (store : SessionStore) (cookies : List Cookie)
    (h : store.value = "") :
    session env options store cookies =
      ({ body := none, headers := [("Content-Type", "application/json")],
         cookies }, []) := by
  unfold session
  rw [if_pos h]
  rfl

/-- A concrete session oracle environment. -/
def sessEnvX : SessEnv :=
  { now := 1000, jwtDecode := fun _ => .ok none, jwtEncode := fun _ => "",
    cbJwt := fun t => some t, cbSessionJwt := fun t => t,
    cbSessionDb := fun _ => 0 }

/-- The cleaning cookie of the concrete store. -/
def cleanCookieX : Cookie :=
  { name := "authjs.session-token", value := "" }

/-- A concrete user-and-session pair that expired at time 999. -/
def expiredUasX : UserAndSession :=
  { user := { id := "u", email := "a@b" }, session := { expires := 999 } }

/-- A concrete adapter that always returns the expired session. -/
def expiredAdapterX : SessionAdapter :=
  { getSessionAndUser := fun _ => some expiredUasX }

/-- Concrete options for the database strategy. -/
def dbOptionsX : SessionOptions :=
  { adapter := some expiredAdapterX,
    session := { strategy := "database", maxAge := 2592000,
                 updateAge := 86400 },
    cookieName := "authjs.session-token" }

/-- Concrete options for the jwt strategy. -/
def jwtOptionsX : SessionOptions :=
  { adapter := none,
    session := { strategy := "jwt", maxAge := 2592000, updateAge := 86400 },
    cookieName := "authjs.session-token" }

/-- A concrete store with no session token. -/
def emptyStoreX : SessionStore :=
  { value := "", cleanCookies := [cleanCookieX], chunk := fun _ _ => [] }

/-- A concrete store holding the token "tok". -/
def tokStoreX : SessionStore :=
  { value := "tok", cleanCookies := [cleanCookieX], chunk := fun _ _ => [] }

/-- Concrete instantiation of C6. -/
theorem C6_session_no_token_witness :
    session sessEnvX jwtOptionsX emptyStoreX [{ name := "other", value := "1" }] =
      ({ body := none, headers := [("Content-Type", "application/json")],
         cookies := [{ name := "other", value := "1" }] }, []) :=
  C6_session_no_token sessEnvX jwtOptionsX emptyStoreX
    [{ name := "other", value := "1" }] rfl

/-- C7: the session action never returns an expired database session: when
the stored session has expired strictly before now, the handler deletes it
via `adapter.deleteSession`, the body stays `null`, and the cleaning cookies
replace the session cookie. -/
theorem C7_session_expired_db (env : SessEnv) (options : SessionOptions)
    (store : SessionStore) (cookies : List Cookie)
    (adapter : SessionAdapter) (uas : UserAndSession)
    (hv : ¬ store.value = "")
    (hstrat : ¬ options.session.strategy = "jwt")
    (had : options.adapter = some adapter)
    (hget : adapter.getSessionAndUser store.value = some uas)
    (hexp : uas.session.expires < env.now) :
    session env options store cookies =
      ({ body := none, headers := [("Content-Type", "application/json")],
         cookies := cookies ++ store.cleanCookies },
       [.deleteSession store.value]) := by
  unfold session
  rw [if_neg hv, if_neg hstrat, had]
  show handleDatabaseSession env options adapter store cookies store.value = _
  unfold handleDatabaseSession
  rw [hget]
  show (if uas.session.expires < env.now then _ else _) = _
  rw [if_pos hexp, if_neg hv]
  rfl

/-- Concrete instantiation of C7. -/
theorem C7_session_expired_db_witness :
    session sessEnvX dbOptionsX tokStoreX [] =
      ({ body := none, headers := [("Content-Type", "application/json")],
         cookies := [cleanCookieX] }, [.deleteSession "tok"]) :=
  C7_session_expired_db sessEnvX dbOptionsX tokStoreX []
    expiredAdapterX expiredUasX
    (by decide) (by decide) rfl rfl (by decide)

/-! ## `AuthInternal` (`lib/index.ts`)

The dispatcher is embedded as a trace semantics: it records the `init` call
(with the `csrfDisabled` flag it computes), every `validateCSRF` call (with
the `csrfTokenVerified` flag it passes), every executed action and every
rendered page, in source order.  `init` and the action bodies are oracles.
`validateCSRF` (whose body lives outside this package slice) aborts the
request when the token is not verified, as the CSRF documentation states;
the verified claims depend only on where `AuthInternal` calls it. -/

/-- The request slice `AuthInternal` dispatches on. -/
structure AuthRequest where
  action : String
  method : String
deriving DecidableEq, Repr

/-- The `AuthConfig` slice: the `skipCSRFCheck` field holds a symbol
identity or nothing; `AuthInternal` compares it against the canonical
`skipCSRFCheck` symbol. -/
structure AuthConfigM where
  skipCSRFCheck : Option Nat
deriving DecidableEq, Repr

/-- The identity of the exported `skipCSRFCheck` symbol. -/
def skipCSRFCheckSymbol : Nat := 0

/-- The slice of the `init` result that `AuthInternal` reads. -/
structure InitOptions where
  csrfTokenVerified : Bool
  providerType : String
deriving DecidableEq, Repr

/-- Oracles: the external `init` routine (a function of the `csrfDisabled`
flag) and the abstract responses of actions and pages. -/
structure AuthInternalEnv where
  init : Bool → InitOptions
  respond : String → Nat

/-- The observable events of one `AuthInternal` run. -/
inductive AuthEvent
  | initCalled (csrfDisabled : Bool)
  | validateCSRF (action : String) (csrfTokenVerified : Bool)
  | runAction (name : String)
  | renderPage (name : String)
deriving DecidableEq, Repr

/-- The errors `AuthInternal` throws. -/
inductive AuthDispatchError
  | unknownAction (msg : String)
  | missingCSRF (action : String)
deriving DecidableEq, Repr

/-- `csrfDisabled`: the config field is the `skipCSRFCheck` symbol. -/
def csrfDisabledOf (config : AuthConfigM) : Bool :=
  config.skipCSRFCheck == some skipCSRFCheckSymbol

/-- The options produced by `init`. -/
def optionsOf (env : AuthInternalEnv) (config : AuthConfigM) : InitOptions :=
  env.init (csrfDisabledOf config)

/-- A CSRF-guarded action: call `validateCSRF` with the verified flag, then
run the action, or abort with `MissingCSRF`. -/
def guardedAction (env : AuthInternalEnv) (trace0 : List AuthEvent)
    (action : String) (verified : Bool) :
    List AuthEvent × Except AuthDispatchError Nat :=
  if verified then
    (trace0 ++ [.validateCSRF action verified, .runAction action],
     .ok (env.respond action))
  else
    (trace0 ++ [.validateCSRF action verified],
     .error (.missingCSRF action))

/-- The GET switch of `AuthInternal`. -/
def AuthInternalGet (env : AuthInternalEnv) (trace0 : List AuthEvent)
    (action : String) : List AuthEvent × Except AuthDispatchError Nat :=
  if action = "callback" then
    (trace0 ++ [.runAction "callback"], .ok (env.respond "callback"))
  else if action = "csrf" then
    (trace0 ++ [.renderPage "csrf"], .ok (env.respond "csrf"))
  else if action = "error" then
    (trace0 ++ [.renderPage "error"], .ok (env.respond "error"))
  else if action = "providers" then
    (trace0 ++ [.renderPage "providers"], .ok (env.respond "providers"))
  else if action = "session" then
    (trace0 ++ [.runAction "session"], .ok (env.respond "session"))
  else if action = "authorized" then
    (trace0 ++ [.renderPage "authorized"], .ok (env.respond "authorized"))
  else if action = "logout" then
    (trace0 ++ [.renderPage "logout"], .ok (env.respond "logout"))
  else if action = "verify-request" then
    (trace0 ++ [.renderPage "verify-request"],
     .ok (env.respond "verify-request"))
  else if action = "webauthn-options" then
    (trace0 ++ [.runAction "webauthn-options"],
     .ok (env.respond "webauthn-options"))
  else
    (trace0, .error (.unknownAction ("Cannot handle action: " ++ action)))

/-- The POST switch of `AuthInternal`: `callback` is guarded exactly for
credentials providers; `session`, `authorized` and `logout` are always
guarded. -/
def AuthInternalPost (env : AuthInternalEnv) (config : AuthConfigM)
    (trace0 : List AuthEvent) (action : String) :
    List AuthEvent × Except AuthDispatchError Nat :=
  if action = "callback" then
    if (optionsOf env config).providerType = "credentials" then
      guardedAction env trace0 "callback"
        (optionsOf env config).csrfTokenVerified
    else
      (trace0 ++ [.runAction "callback"], .ok (env.respond "callback"))
  else if action = "session" then
    guardedAction env trace0 "session" (optionsOf env config).csrfTokenVerified
  else if action = "authorized" then
    guardedAction env trace0 "authorized"
      (optionsOf env config).csrfTokenVerified
  else if action = "logout" then
    guardedAction env trace0 "logout" (optionsOf env config).csrfTokenVerified
  else
    (trace0, .error (.unknownAction ("Cannot handle action: " ++ action)))

/-- `AuthInternal`: compute `csrfDisabled`, call `init` with it, then
dispatch on the method and the action. -/
def AuthInternal (env : AuthInternalEnv) (request : AuthRequest)
    (config : AuthConfigM) : List AuthEvent × Except AuthDispatchError Nat :=
  if request.method = "GET" then
    AuthInternalGet env [.initCalled (csrfDisabledOf config)] request.action
  else
    AuthInternalPost env config [.initCalled (csrfDisabledOf config)]
      request.action

/-- Scan a trace: `true` when no `runAction a` occurs before a
`validateCSRF a _`. -/
def checkGuard (a : String) : List AuthEvent → Bool → Bool
  | [], _ => true
  | .validateCSRF a' _ :: t, seen => checkGuard a t (seen || (a' == a))
  | .runAction a' :: t, seen =>
    if a' == a && !seen then false else checkGuard a t seen
  | _ :: t, seen => checkGuard a t seen

set_option maxHeartbeats 1600000 in
/-- C1: on POST requests the state-changing actions `session`, `authorized`
and `logout` never run without `validateCSRF` being called first; the
`callback` action is guarded exactly when the provider type is
`credentials`, with the `csrfTokenVerified` flag from `init`; GET requests
never trigger CSRF validation; and the `csrfDisabled` flag handed to `init`
is true exactly when `config.skipCSRFCheck` is the `skipCSRFCheck`
symbol. -/
theorem C1_AuthInternal_csrf_discipline (env : AuthInternalEnv)
    (request : AuthRequest) (config : AuthConfigM) :
    (request.method = "POST" →
      ∀ a, (a = "session" ∨ a = "authorized" ∨ a = "logout") →
        checkGuard a (AuthInternal env request config).1 false = true) ∧
    (request.method = "POST" → request.action = "callback" →
      ((AuthEvent.validateCSRF "callback"
          (optionsOf env config).csrfTokenVerified ∈
        (AuthInternal env request config).1) ↔
        (optionsOf env config).providerType = "credentials")) ∧
    (request.method = "GET" →
      ∀ a v, AuthEvent.validateCSRF a v ∉ (AuthInternal env request config).1) ∧
    (∀ b, AuthEvent.initCalled b ∈ (AuthInternal env request config).1 ↔
      b = csrfDisabledOf config) := by
  refine ⟨?_, ?_, ?_, ?_⟩
  · intro hm a ha
    have hng : ¬ request.method = "GET" := by rw [hm]; decide
    unfold AuthInternal
    rw [if_neg hng]
    unfold AuthInternalPost
    split_ifs <;> rcases ha with rfl | rfl | rfl <;>
      cases hv : (optionsOf env config).csrfTokenVerified <;> rfl
  · intro hm hact
    have hng : ¬ request.method = "GET" := by rw [hm]; decide
    unfold AuthInternal
    rw [if_neg hng]
    unfold AuthInternalPost
    rw [if_pos hact]
    by_cases hcred : (optionsOf env config).providerType = "credentials"
    · rw [if_pos hcred]
      refine ⟨fun _ => hcred, fun _ => ?_⟩
      cases hv : (optionsOf env config).csrfTokenVerified <;>
        simp [guardedAction]
    · rw [if_neg hcred]
      constructor
      · intro hmem
        simp at hmem
      · intro h
        exact absurd h hcred
  · intro hm a v
    unfold AuthInternal
    rw [if_pos hm]
    unfold AuthInternalGet
    split_ifs <;> simp
  · intro b
    unfold AuthInternal
    by_cases hm : request.method = "GET"
    · rw [if_pos hm]
      unfold AuthInternalGet
      split_ifs <;>
        simp only [List.cons_append, List.nil_append, List.mem_cons,
          List.mem_singleton, List.not_mem_nil, or_false, AuthEvent.initCalled.injEq] <;>
        simp
    · rw [if_neg hm]
      unfold AuthInternalPost
      cases hv : (optionsOf env config).csrfTokenVerified <;>
        split_ifs <;>
        simp [guardedAction]

/-- Concrete init options with a verified CSRF token. -/
def initOptionsX : InitOptions :=
  { csrfTokenVerified := true, providerType := "credentials" }

/-- A concrete dispatcher environment with a verified CSRF token. -/
def authEnvX : AuthInternalEnv :=
  { init := fun _ => initOptionsX, respond := fun _ => 0 }

/-- A POST request for the session action. -/
def postSessionReq : AuthRequest :=
  { action := "session", method := "POST" }

/-- A config that does not skip the CSRF check. -/
def authConfigX : AuthConfigM := { skipCSRFCheck := none }

/-- Concrete instantiation of C1: the POST session action is guarded. -/
theorem C1_AuthInternal_csrf_discipline_witness :
    checkGuard "session" (AuthInternal authEnvX postSessionReq authConfigX).1
      false = true :=
  (C1_AuthInternal_csrf_discipline authEnvX postSessionReq authConfigX).1
    rfl "session" (Or.inl rfl)

end NextAuth
